import Mathlib

/-!
Verification development for the `manipmongo` manipulator
(`src/manipmongo/manipulator.go`).

The Go code is embedded shallowly:

* Go `int` values are modelled as `Int` with explicit two's-complement
  wrap-around (`wrap64`) at every arithmetic operation whose result could
  leave the 64-bit range; Go `/` and `%` (truncated division) are
  `Int.tdiv` / `Int.tmod`.
* The MongoDB backend is an explicit environment: bulk execution is a
  function `Bulk → RunRes`, per-identifier lookups a function
  `Nat → LookupRes`.  A result that is independent of that environment
  corresponds to a call that performs no backend I/O.
* The transaction registry, the `transaction` struct with its lazily
  created per-identity bulks, the session lifecycle, and elemental's
  `ResetDefaultForZeroValues` are not part of the given sources (only
  their callers are); they are modelled from the spec where marked.
-/

namespace ManipMongo

/-- Two's-complement wrap-around of a mathematical integer into the
signed 64-bit range, modelling overflow of a Go `int`. -/
def wrap64 (x : Int) : Int := (x + 2 ^ 63) % 2 ^ 64 - 2 ^ 63

theorem wrap64_id (x : Int) (h1 : -(2 ^ 63) ≤ x) (h2 : x < 2 ^ 63) : wrap64 x = x := by
  have e : (2 : Int) ^ 64 = 2 ^ 63 + 2 ^ 63 := by norm_num
  have h3 : 0 ≤ x + 2 ^ 63 := by linarith
  have h4 : x + 2 ^ 63 < 2 ^ 64 := by linarith
  unfold wrap64
  rw [Int.emod_eq_of_lt h3 h4]
  ring

/-- Result of the query-window computation of `RetrieveMany`
(`manipulator.go:106-149`): fetch everything, fetch a skip/limit
window, or return no results without querying the backend. -/
inductive Plan where
  | fetchAll
  | window (skip limit : Int)
  | noResults
  deriving DecidableEq

/-- The query window computed by `RetrieveMany` (`manipulator.go:106-149`)
from the requested page, the page size and the total count `n` returned
by `Count` (the count is only consulted on the negative-page branch). -/
def retrieveManyPlan (page pageSize n : Int) : Plan :=
  if page = 0 ∨ pageSize = 0 then
    Plan.fetchAll
  else if 0 < page then
    Plan.window (wrap64 ((page - 1) * pageSize)) pageSize
  else if wrap64 (n - wrap64 (wrap64 (-page) * pageSize)) < 0 then
    if (if n.tmod pageSize ≠ 0 then n.tdiv pageSize + 1 else n.tdiv pageSize) < wrap64 (-page) then
      Plan.noResults
    else
      Plan.window 0 (n.tmod pageSize)
  else
    Plan.window (wrap64 (n - wrap64 (wrap64 (-page) * pageSize))) pageSize

theorem maxPage_eq_ceil (n s : Int) (hn : 0 ≤ n) (hs : 0 < s) :
    (if n.tmod s ≠ 0 then n.tdiv s + 1 else n.tdiv s) = (n + s - 1).tdiv s := by
  rw [Int.tdiv_eq_ediv hn hs.le, Int.tdiv_eq_ediv (by omega) hs.le, Int.tmod_eq_emod hn hs.le]
  have h1 := Int.ediv_add_emod n s
  have h2 := Int.emod_nonneg n (by omega : s ≠ 0)
  have h3 := Int.emod_lt_of_pos n hs
  have key : (n + s - 1) / s = (n % s + s - 1) / s + n / s := by
    have e : n + s - 1 = (n % s + s - 1) + s * (n / s) := by linarith
    rw [e, Int.add_mul_ediv_left _ _ (by omega : s ≠ 0)]
  rw [key]
  by_cases hz : n % s = 0
  · have h5 : (n % s + s - 1) / s = 0 := by
      rw [hz]
      exact Int.ediv_eq_zero_of_lt (by omega) (by omega)
    rw [if_neg (by omega : ¬n % s ≠ 0), h5]
    ring
  · have h5 : (n % s + s - 1) / s = 1 := by
      have e : n % s + s - 1 = (n % s - 1) + s * 1 := by ring
      rw [e, Int.add_mul_ediv_left _ _ (by omega : s ≠ 0),
        Int.ediv_eq_zero_of_lt (by omega) (by omega)]
      norm_num
    rw [if_pos hz, h5]
    ring

/-- C1: for a `RetrieveMany` call with requested page `p < 0` and page size
`0 < s` over a total count `n`, the computed window is `page = -p`,
`skip = n - page * s`; when `skip ≥ 0` the limit is `s`; when `skip < 0`,
with `maxPage = ceil(n / s)`, a page beyond `maxPage` yields no results
without querying, and otherwise skip is clamped to `0` with limit
`n mod s`.  The bounds keep every intermediate Go `int` computation away
from 64-bit overflow.  The two concrete conjuncts are the spec's
Scenario A (`n=10, s=3, p=-4`) and Scenario B (`n=9, s=3, p=-3`). -/
theorem retrieveManyPlan_reverse_page (n s p : Int)
    (hn : 0 ≤ n) (hs : 0 < s) (hp : p < 0)
    (hnB : n < 2 ^ 32) (hsB : s < 2 ^ 31) (hpB : -(2 ^ 31) < p) :
    (0 ≤ n - -p * s → retrieveManyPlan p s n = Plan.window (n - -p * s) s) ∧
    (n - -p * s < 0 →
      ((n + s - 1).tdiv s < -p → retrieveManyPlan p s n = Plan.noResults) ∧
      (-p ≤ (n + s - 1).tdiv s → retrieveManyPlan p s n = Plan.window 0 (n.tmod s))) ∧
    retrieveManyPlan (-4) 3 10 = Plan.window 0 1 ∧
    retrieveManyPlan (-3) 3 9 = Plan.window 0 3 := by
  have e1 : (2 : Int) ^ 31 * 2 ^ 31 = 2 ^ 62 := by norm_num
  have e2 : (2 : Int) ^ 62 ≤ 2 ^ 63 := by norm_num
  have e3 : (2 : Int) ^ 32 ≤ 2 ^ 63 := by norm_num
  have e4 : (0 : Int) < 2 ^ 63 := by norm_num
  have hK : -p * s < 2 ^ 31 * 2 ^ 31 := by
    have := mul_lt_mul'' (by omega : -p < 2 ^ 31) hsB (by omega : (0 : Int) ≤ -p) hs.le
    linarith
  have hK0 : 0 ≤ -p * s := mul_nonneg (by omega) hs.le
  have hwp : wrap64 (-p) = -p := wrap64_id _ (by linarith) (by linarith)
  have hwK : wrap64 (-p * s) = -p * s := wrap64_id _ (by linarith) (by linarith)
  have hws : wrap64 (n - -p * s) = n - -p * s := wrap64_id _ (by linarith) (by linarith)
  have hc1 : ¬(p = 0 ∨ s = 0) := by omega
  have hc2 : ¬(0 < p) := by omega
  refine ⟨?_, ?_, by decide, by decide⟩
  · intro hskip
    simp only [retrieveManyPlan, hwp, hwK, hws]
    rw [if_neg hc1, if_neg hc2, if_neg (by omega : ¬(n - -p * s < 0))]
  · intro hskip
    constructor
    · intro hover
      simp only [retrieveManyPlan, hwp, hwK, hws]
      rw [if_neg hc1, if_neg hc2, if_pos hskip, maxPage_eq_ceil n s hn hs, if_pos hover]
    · intro hunder
      simp only [retrieveManyPlan, hwp, hwK, hws]
      rw [if_neg hc1, if_neg hc2, if_pos hskip, maxPage_eq_ceil n s hn hs,
        if_neg (by omega : ¬((n + s - 1).tdiv s < -p))]

theorem retrieveManyPlan_reverse_page_witness :
    (0 ≤ (10 : Int) - -(-4) * 3 → retrieveManyPlan (-4) 3 10 = Plan.window (10 - -(-4) * 3) 3) ∧
    ((10 : Int) - -(-4) * 3 < 0 →
      (((10 : Int) + 3 - 1).tdiv 3 < -(-4) → retrieveManyPlan (-4) 3 10 = Plan.noResults) ∧
      (-(-4 : Int) ≤ ((10 : Int) + 3 - 1).tdiv 3 →
        retrieveManyPlan (-4) 3 10 = Plan.window 0 ((10 : Int).tmod 3))) ∧
    retrieveManyPlan (-4) 3 10 = Plan.window 0 1 ∧
    retrieveManyPlan (-3) 3 9 = Plan.window 0 3 :=
  retrieveManyPlan_reverse_page 10 3 (-4) (by decide) (by decide) (by decide)
    (by decide) (by decide) (by decide)

/-- C4 counterexample: with `Page = -1` and `PageSize = -1` (both `≤ 0`,
neither `= 0`) over a count of `0`, `RetrieveMany` does not take the
unpaginated fetch-all path: it computes the reverse-page window
`skip = 1`, `limit = -1` and queries the backend with it. -/
theorem retrieveManyPlan_neg_both_not_fetchAll :
    retrieveManyPlan (-1) (-1) 0 = Plan.window 1 (-1) ∧
    retrieveManyPlan (-1) (-1) 0 ≠ Plan.fetchAll := by decide

/-- C4 (amended): the unpaginated fetch-all path is taken exactly when
the requested page is `0` or the page size is `0`; in particular a page
size of `0` is guarded whenever the page is nonzero, so the pagination
formula is never evaluated with a zero page size. -/
theorem retrieveManyPlan_fetchAll_iff (page pageSize n : Int) :
    retrieveManyPlan page pageSize n = Plan.fetchAll ↔ (page = 0 ∨ pageSize = 0) := by
  unfold retrieveManyPlan
  split_ifs with h1 h2 h3 h4 <;> simp_all

/-- An application object: mutable identifier, identity (category), and a
flat field list paired with the schema-declared defaults for those fields
(`0` standing for the storage zero value / no declared default). -/
structure Obj where
  identifier : Nat
  identity : Nat
  fields : List Int
  defaults : List Int
  deriving DecidableEq

/-- A staged write operation inside a bulk
(`bulk.Insert`, `bulk.Update`, `bulk.Remove`, `bulk.RemoveAll`). -/
inductive Op where
  | insert (o : Obj)
  | update (oid : Nat) (o : Obj)
  | remove (oid : Nat)
  | removeAll
  deriving DecidableEq

/-- Modelled from the spec: a Bulk Batch — the ordered accumulator of
pending operations for one object category (`transaction.bulkForIdentity`
is not among the given sources). -/
structure Bulk where
  identity : Nat
  ops : List Op
  deriving DecidableEq

/-- Modelled from the spec: the `transaction` struct — one backend session
plus the category-to-Bulk-Batch mapping kept in batch-creation order
(the spec fixes that `Commit` executes batches in creation order). -/
structure Txn where
  tid : Nat
  sessionId : Nat
  bulks : List Bulk
  deriving DecidableEq

/-- Modelled from the spec: `registerTransaction` of the Transaction
Registry inserts unconditionally, last write wins. -/
def registerTransaction (reg : List (Nat × Txn)) (tid : Nat) (t : Txn) : List (Nat × Txn) :=
  (tid, t) :: reg

/-- Modelled from the spec: `transactionWithID` of the Transaction
Registry returns the registered transaction or not-found. -/
def transactionWithID : List (Nat × Txn) → Nat → Option Txn
  | [], _ => none
  | p :: rest, tid => if p.1 = tid then some p.2 else transactionWithID rest tid

/-- Modelled from the spec: `unregisterTransaction` of the Transaction
Registry removes the entry for the id. -/
def unregisterTransaction : List (Nat × Txn) → Nat → List (Nat × Txn)
  | [], _ => []
  | p :: rest, tid =>
      if p.1 = tid then unregisterTransaction rest tid
      else p :: unregisterTransaction rest tid

/-- Manipulator-side state: the transaction registry, the generators for
fresh transaction ids (`manipulate.NewTransactionID`), copied sessions and
object ids (`bson.NewObjectId`), and the log of closed sessions
(`transaction.closeSession` appends to it, so closing exactly once means
appending exactly one element). -/
structure MState where
  registry : List (Nat × Txn)
  nextTid : Nat
  nextSession : Nat
  nextOid : Nat
  closedSessions : List Nat
  deriving DecidableEq

/-- Modelled from the spec: looking up an id in the registry and, when
absent, creating a transaction owning a fresh session and registering it
(`manipulator.go:447-455`, `newTransaction` is not among the sources). -/
def ensureTransaction (st : MState) (tid : Nat) : MState :=
  match transactionWithID st.registry tid with
  | some _ => st
  | none =>
      { st with
          nextSession := st.nextSession + 1,
          registry := registerTransaction st.registry tid ⟨tid, st.nextSession, []⟩ }

/-- `retrieveTransaction` (`manipulator.go:437-456`): an empty context
transaction id (modelled as `none`) generates a fresh id and marks the
transaction implicit; the transaction is then looked up or created. -/
def retrieveTransaction (st : MState) (ctxTid : Option Nat) : Nat × Bool × MState :=
  match ctxTid with
  | some tid => (tid, false, ensureTransaction st tid)
  | none =>
      (st.nextTid, true, ensureTransaction { st with nextTid := st.nextTid + 1 } st.nextTid)

/-- Modelled from the spec: lazily create the Bulk Batch of a category,
keeping batch-creation order (new batches go to the back). -/
def bulkEnsure (bulks : List Bulk) (ident : Nat) : List Bulk :=
  match bulks with
  | [] => [⟨ident, []⟩]
  | b :: bs => if b.identity = ident then b :: bs else b :: bulkEnsure bs ident

/-- Append one staged operation to the Bulk Batch of a category,
creating the batch at the back when absent. -/
def bulkAppend (bulks : List Bulk) (ident : Nat) (op : Op) : List Bulk :=
  match bulks with
  | [] => [⟨ident, [op]⟩]
  | b :: bs =>
      if b.identity = ident then { b with ops := b.ops ++ [op] } :: bs
      else b :: bulkAppend bs ident op

/-- Apply a function to the registered transaction of an id, mirroring
in-place mutation through the registry's pointer. -/
def updateTxn (st : MState) (tid : Nat) (f : Txn → Txn) : MState :=
  { st with registry := st.registry.map (fun p => if p.1 = tid then (p.1, f p.2) else p) }

/-- Stage one operation into the id's transaction, in the category's bulk. -/
def stageOp (st : MState) (tid ident : Nat) (op : Op) : MState :=
  updateTxn st tid (fun t => { t with bulks := bulkAppend t.bulks ident op })

/-- `transaction.bulkForIdentity` as seen from the callers: make sure the
category's bulk exists in the id's transaction. -/
def ensureBulk (st : MState) (tid ident : Nat) : MState :=
  updateTxn st tid (fun t => { t with bulks := bulkEnsure t.bulks ident })

/-- Outcome of running one staged bulk against the backend
(`bulk.Run`): success, a duplicate-key error (`mgo.IsDup`), or any
other error carrying a message code. -/
inductive RunRes where
  | ok
  | dup
  | err (msg : Nat)
  deriving DecidableEq

/-- The error kinds the manipulator returns
(`manipulate.NewErr...`); message details are modelled as codes. -/
inductive MErr where
  | transactionNotFound
  | constraintViolation
  | cannotCommit (msg : Nat)
  | objectNotFound
  | cannotExecuteQuery (msg : Nat)
  | finalizerFailed (e : Nat)
  deriving DecidableEq

/-- The bulk-execution loop of `Commit` (`manipulator.go:405-417`): run
the staged bulks in order, stopping at the first failure, which is
translated to `constraintViolation` for a duplicate key and to
`cannotCommit` otherwise.  Also returns the list of bulks that ran
successfully, in execution order. -/
def runBulks (run : Bulk → RunRes) : List Bulk → Option MErr × List Bulk
  | [] => (none, [])
  | b :: bs =>
      match run b with
      | RunRes.ok =>
          let r := runBulks run bs
          (r.1, b :: r.2)
      | RunRes.dup => (some MErr.constraintViolation, [])
      | RunRes.err m => (some (MErr.cannotCommit m), [])

/-- `Commit` (`manipulator.go:386-422`): an unknown id yields
`transactionNotFound` untouched; otherwise the staged bulks execute in
order and — deferred, so regardless of outcome — the session is closed
and the transaction unregistered. -/
def commit (run : Bulk → RunRes) (st : MState) (tid : Nat) :
    Option MErr × List Bulk × MState :=
  match transactionWithID st.registry tid with
  | none => (some MErr.transactionNotFound, [], st)
  | some t =>
      let r := runBulks run t.bulks
      (r.1, r.2,
        { st with
            closedSessions := st.closedSessions ++ [t.sessionId],
            registry := unregisterTransaction st.registry tid })

/-- `Abort` (`manipulator.go:424-435`): unknown id yields `false`;
otherwise close the session, unregister, discard the staged bulks. -/
def abort (st : MState) (tid : Nat) : Bool × MState :=
  match transactionWithID st.registry tid with
  | none => (false, st)
  | some t =>
      (true,
        { st with
            closedSessions := st.closedSessions ++ [t.sessionId],
            registry := unregisterTransaction st.registry tid })

theorem transactionWithID_register (reg : List (Nat × Txn)) (tid : Nat) (t : Txn) :
    transactionWithID (registerTransaction reg tid t) tid = some t := by
  simp [transactionWithID, registerTransaction]

theorem transactionWithID_eq_none (reg : List (Nat × Txn)) (tid : Nat)
    (h : ∀ p ∈ reg, p.1 ≠ tid) :
    transactionWithID reg tid = none := by
  induction reg with
  | nil => rfl
  | cons p rest ih =>
      have hp : p.1 ≠ tid := h p (by simp)
      have htl : transactionWithID rest tid = none := ih (fun q hq => h q (by simp [hq]))
      simp [transactionWithID, hp, htl]

theorem transactionWithID_unregister (reg : List (Nat × Txn)) (tid : Nat) :
    transactionWithID (unregisterTransaction reg tid) tid = none := by
  induction reg with
  | nil => rfl
  | cons p rest ih =>
      by_cases hp : p.1 = tid <;> simp [unregisterTransaction, transactionWithID, hp, ih]

theorem unregister_of_fresh (reg : List (Nat × Txn)) (tid : Nat)
    (h : ∀ p ∈ reg, p.1 ≠ tid) :
    unregisterTransaction reg tid = reg := by
  induction reg with
  | nil => rfl
  | cons p rest ih =>
      have hp : p.1 ≠ tid := h p (by simp)
      have htl := ih (fun q hq => h q (by simp [hq]))
      simp [unregisterTransaction, hp, htl]

theorem transactionWithID_updateTxn (reg : List (Nat × Txn)) (tid : Nat) (f : Txn → Txn) :
    transactionWithID (reg.map (fun p => if p.1 = tid then (p.1, f p.2) else p)) tid =
      (transactionWithID reg tid).map f := by
  induction reg with
  | nil => rfl
  | cons p rest ih =>
      by_cases hp : p.1 = tid <;> simp [transactionWithID, hp, ih]

theorem unregister_updateTxn (reg : List (Nat × Txn)) (tid : Nat) (f : Txn → Txn) :
    unregisterTransaction (reg.map (fun p => if p.1 = tid then (p.1, f p.2) else p)) tid =
      unregisterTransaction reg tid := by
  induction reg with
  | nil => rfl
  | cons p rest ih =>
      by_cases hp : p.1 = tid <;> simp [unregisterTransaction, hp, ih]

theorem commit_unknown_id (run : Bulk → RunRes) (st : MState) (tid : Nat)
    (h : transactionWithID st.registry tid = none) :
    commit run st tid = (some MErr.transactionNotFound, [], st) := by
  simp [commit, h]

theorem runBulks_all_ok (run : Bulk → RunRes) (bs : List Bulk)
    (h : ∀ b ∈ bs, run b = RunRes.ok) :
    runBulks run bs = (none, bs) := by
  induction bs with
  | nil => rfl
  | cons b rest ih =>
      have hb : run b = RunRes.ok := h b (by simp)
      have htl := ih (fun q hq => h q (by simp [hq]))
      simp [runBulks, hb, htl]

theorem runBulks_first_fail (run : Bulk → RunRes) (pre : List Bulk) (bad : Bulk)
    (post : List Bulk) (hpre : ∀ b ∈ pre, run b = RunRes.ok) :
    (run bad = RunRes.dup →
      runBulks run (pre ++ bad :: post) = (some MErr.constraintViolation, pre)) ∧
    (∀ m, run bad = RunRes.err m →
      runBulks run (pre ++ bad :: post) = (some (MErr.cannotCommit m), pre)) := by
  induction pre with
  | nil =>
      constructor
      · intro hd
        simp [runBulks, hd]
      · intro m hm
        simp [runBulks, hm]
  | cons b rest ih =>
      have hb : run b = RunRes.ok := hpre b (by simp)
      have ih2 := ih (fun q hq => hpre q (by simp [hq]))
      constructor
      · intro hd
        simp [runBulks, hb, ih2.1 hd]
      · intro m hm
        simp [runBulks, hb, ih2.2 m hm]

/-- C2: committing an unknown or already-retired id returns
`transactionNotFound` with no backend execution (the result names no
bulk and is the same for every backend behaviour `run`, and the state is
untouched); committing a registered transaction closes its session and
removes the id exactly once (one element appended to the closed-session
log, the id gone from the registry), so a second `commit` of the same id
returns `transactionNotFound` without re-executing anything. -/
theorem commit_retire_semantics (run run2 : Bulk → RunRes) (st : MState) (tid : Nat) :
    (transactionWithID st.registry tid = none →
      commit run st tid = (some MErr.transactionNotFound, [], st) ∧
      commit run st tid = commit run2 st tid) ∧
    (∀ t, transactionWithID st.registry tid = some t →
      transactionWithID (commit run st tid).2.2.registry tid = none ∧
      (commit run st tid).2.2.closedSessions = st.closedSessions ++ [t.sessionId] ∧
      commit run2 (commit run st tid).2.2 tid =
        (some MErr.transactionNotFound, [], (commit run st tid).2.2)) := by
  constructor
  · intro h
    exact ⟨commit_unknown_id run st tid h, by
      rw [commit_unknown_id run st tid h, commit_unknown_id run2 st tid h]⟩
  · intro t h
    have hreg : (commit run st tid).2.2.registry = unregisterTransaction st.registry tid := by
      simp [commit, h]
    have h2 : transactionWithID (commit run st tid).2.2.registry tid = none := by
      rw [hreg]
      exact transactionWithID_unregister _ _
    exact ⟨h2, by simp [commit, h], commit_unknown_id run2 _ tid h2⟩

theorem commit_retire_semantics_witness :
    transactionWithID
        (commit (fun _ => RunRes.ok) ⟨[(5, ⟨5, 9, []⟩)], 0, 0, 0, []⟩ 5).2.2.registry 5 = none ∧
    (commit (fun _ => RunRes.ok) ⟨[(5, ⟨5, 9, []⟩)], 0, 0, 0, []⟩ 5).2.2.closedSessions =
      [] ++ [9] ∧
    commit (fun _ => RunRes.ok)
        (commit (fun _ => RunRes.ok) ⟨[(5, ⟨5, 9, []⟩)], 0, 0, 0, []⟩ 5).2.2 5 =
      (some MErr.transactionNotFound, [],
        (commit (fun _ => RunRes.ok) ⟨[(5, ⟨5, 9, []⟩)], 0, 0, 0, []⟩ 5).2.2) :=
  (commit_retire_semantics (fun _ => RunRes.ok) (fun _ => RunRes.ok)
      ⟨[(5, ⟨5, 9, []⟩)], 0, 0, 0, []⟩ 5).2 ⟨5, 9, []⟩ (by decide)

/-- C3: committing a registered transaction executes its staged bulks in
batch-creation order: when every bulk runs clean the whole list is
executed and the call succeeds; when the first failing bulk fails with a
duplicate-key error the call returns `constraintViolation`, any other
failure returns `cannotCommit`, and in either case exactly the batches
before the failing one were executed (they stay applied, nothing is
retried), while the transaction is still retired. -/
theorem commit_executes_batches_in_order (run : Bulk → RunRes) (st : MState) (tid : Nat)
    (t : Txn) (h : transactionWithID st.registry tid = some t) :
    ((∀ b ∈ t.bulks, run b = RunRes.ok) →
      commit run st tid =
        (none, t.bulks,
          { st with
              closedSessions := st.closedSessions ++ [t.sessionId],
              registry := unregisterTransaction st.registry tid })) ∧
    (∀ pre bad post, t.bulks = pre ++ bad :: post →
      (∀ b ∈ pre, run b = RunRes.ok) →
      (run bad = RunRes.dup →
        commit run st tid =
          (some MErr.constraintViolation, pre,
            { st with
                closedSessions := st.closedSessions ++ [t.sessionId],
                registry := unregisterTransaction st.registry tid })) ∧
      (∀ m, run bad = RunRes.err m →
        commit run st tid =
          (some (MErr.cannotCommit m), pre,
            { st with
                closedSessions := st.closedSessions ++ [t.sessionId],
                registry := unregisterTransaction st.registry tid }))) := by
  constructor
  · intro hok
    simp [commit, h, runBulks_all_ok run t.bulks hok]
  · intro pre bad post hsplit hpre
    constructor
    · intro hd
      simp [commit, h, hsplit, (runBulks_first_fail run pre bad post hpre).1 hd]
    · intro m hm
      simp [commit, h, hsplit, (runBulks_first_fail run pre bad post hpre).2 m hm]

theorem commit_executes_batches_in_order_witness :
    commit (fun b => if b.identity = 1 then RunRes.ok else RunRes.dup)
        ⟨[(7, ⟨7, 3, [⟨1, []⟩, ⟨2, []⟩]⟩)], 0, 0, 0, []⟩ 7 =
      (some MErr.constraintViolation, [⟨1, []⟩],
        { (⟨[(7, ⟨7, 3, [⟨1, []⟩, ⟨2, []⟩]⟩)], 0, 0, 0, []⟩ : MState) with
            closedSessions := [] ++ [3],
            registry :=
              unregisterTransaction [(7, ⟨7, 3, [⟨1, []⟩, ⟨2, []⟩]⟩)] 7 }) :=
  ((commit_executes_batches_in_order
        (fun b => if b.identity = 1 then RunRes.ok else RunRes.dup)
        ⟨[(7, ⟨7, 3, [⟨1, []⟩, ⟨2, []⟩]⟩)], 0, 0, 0, []⟩ 7
        ⟨7, 3, [⟨1, []⟩, ⟨2, []⟩]⟩ (by decide)).2
      [⟨1, []⟩] ⟨2, []⟩ [] (by decide) (by decide)).1 (by decide)

/-- Modelled from the spec: elemental's `ResetDefaultForZeroValues`
(the default-value backport) — every field holding the storage zero
value is replaced by its schema-declared default; a field with no
declared non-zero default keeps its value. -/
def backport (o : Obj) : Obj :=
  { o with fields := o.fields.zipWith (fun v d => if v = 0 then d else v) o.defaults }

/-- The optional `CreateFinalizer` of the context: absent, or a callback
returning an error code on failure. -/
def finApply (fin : Option (Obj → Option Nat)) (o : Obj) : Option Nat :=
  match fin with
  | some f => f o
  | none => none

/-- The per-child loop of `Create` (`manipulator.go:233-249`): assign the
next fresh identifier, run the finalizer (a failure returns its error at
once, staging nothing further), then stage an insert into the bulk picked
from the first child's identity.  Returns the error, the children as
mutated so far, and the state. -/
def createLoop (fin : Option (Obj → Option Nat)) (tid ident : Nat) :
    MState → List Obj → Option Nat × List Obj × MState
  | st, [] => (none, [], st)
  | st, c :: rest =>
      let c1 : Obj := { c with identifier := st.nextOid }
      let st1 : MState := { st with nextOid := st.nextOid + 1 }
      match finApply fin c1 with
      | some e => (some e, c1 :: rest, st1)
      | none =>
          let r := createLoop fin tid ident (stageOp st1 tid ident (Op.insert c1)) rest
          (r.1, c1 :: r.2.1, r.2.2)

/-- `Create` (`manipulator.go:221-256`).  An empty child list is `none`:
the code reads `children[0].Identity()` unconditionally and panics.
(The transaction resolved just before the panicking index is
unobservable: the panic escapes the call.)  Otherwise the transaction is
resolved, the first child's bulk ensured, the children processed, and an
implicit transaction is committed at once with `Commit`'s result
becoming the call's result. -/
def create (run : Bulk → RunRes) (st : MState) (ctxTid : Option Nat)
    (fin : Option (Obj → Option Nat)) (children : List Obj) :
    Option (Option MErr × List Obj × MState) :=
  match children with
  | [] => none
  | c0 :: _ =>
      let r0 := retrieveTransaction st ctxTid
      let st1 := ensureBulk r0.2.2 r0.1 c0.identity
      let r1 := createLoop fin r0.1 c0.identity st1 children
      match r1.1 with
      | some e => some (some (MErr.finalizerFailed e), r1.2.1, r1.2.2)
      | none =>
          if r0.2.1 then
            let rc := commit run r1.2.2 r0.1
            some (rc.1, r1.2.1, rc.2.2)
          else
            some (none, r1.2.1, r1.2.2)

/-- The per-object loop of `Update` (`manipulator.go:274-281`): stage a
replace-by-identifier per object. -/
def updateLoop (tid ident : Nat) : MState → List Obj → MState
  | st, [] => st
  | st, o :: rest => updateLoop tid ident (stageOp st tid ident (Op.update o.identifier o)) rest

/-- `Update` (`manipulator.go:258-288`): an empty list returns success at
once, before any transaction is resolved; otherwise the staged updates
go to the first object's bulk and an implicit transaction commits. -/
def update (run : Bulk → RunRes) (st : MState) (ctxTid : Option Nat)
    (objects : List Obj) : Option MErr × MState :=
  match objects with
  | [] => (none, st)
  | o0 :: _ =>
      let r0 := retrieveTransaction st ctxTid
      let st1 := ensureBulk r0.2.2 r0.1 o0.identity
      let st2 := updateLoop r0.1 o0.identity st1 objects
      if r0.2.1 then
        let rc := commit run st2 r0.1
        (rc.1, rc.2.2)
      else
        (none, st2)

/-- The per-object loop of `Delete` (`manipulator.go:306-319`): stage a
remove-by-identifier, then apply the default-value backport to the
passed-in object in place.  Returns the mutated objects and the state. -/
def deleteLoop (tid ident : Nat) : MState → List Obj → List Obj × MState
  | st, [] => ([], st)
  | st, o :: rest =>
      let st1 := stageOp st tid ident (Op.remove o.identifier)
      let r := deleteLoop tid ident st1 rest
      (backport o :: r.1, r.2)

/-- `Delete` (`manipulator.go:290-326`): an empty list returns success at
once, before any transaction is resolved; otherwise removals are staged
per object, each passed-in object is backported in place, and an
implicit transaction commits. -/
def delete (run : Bulk → RunRes) (st : MState) (ctxTid : Option Nat)
    (objects : List Obj) : Option MErr × List Obj × MState :=
  match objects with
  | [] => (none, [], st)
  | o0 :: _ =>
      let r0 := retrieveTransaction st ctxTid
      let st1 := ensureBulk r0.2.2 r0.1 o0.identity
      let r1 := deleteLoop r0.1 o0.identity st1 objects
      if r0.2.1 then
        let rc := commit run r1.2 r0.1
        (rc.1, r1.1, rc.2.2)
      else
        (none, r1.1, r1.2)

/-- Outcome of one per-identifier backend lookup
(`collection.Find(filter).One`): the stored record, `mgo.ErrNotFound`,
or any other failure carrying a message code. -/
inductive LookupRes where
  | found (o : Obj)
  | notFound
  | failure (msg : Nat)
  deriving DecidableEq

/-- The per-object loop of `Retrieve` (`manipulator.go:192-216`): look
the object up by identifier; not-found returns `objectNotFound` at once,
any other failure `cannotExecuteQuery`; on success the fetched record
replaces the object and the default-value backport is applied before
moving to the next object. -/
def retrieveLoop (lk : Nat → LookupRes) : List Obj → Option MErr × List Obj
  | [] => (none, [])
  | o :: rest =>
      match lk o.identifier with
      | LookupRes.notFound => (some MErr.objectNotFound, o :: rest)
      | LookupRes.failure m => (some (MErr.cannotExecuteQuery m), o :: rest)
      | LookupRes.found data =>
          let r := retrieveLoop lk rest
          (r.1, backport data :: r.2)

/-- `Retrieve` (`manipulator.go:168-219`): an empty list returns success
at once, before any session is copied or the backend contacted. -/
def retrieve (lk : Nat → LookupRes) (objects : List Obj) : Option MErr × List Obj :=
  match objects with
  | [] => (none, [])
  | _ :: _ => retrieveLoop lk objects

/-- The children of a `Create` call after the identifier-assignment pass:
consecutive fresh identifiers starting at `k`. -/
def assignIds (k : Nat) : List Obj → List Obj
  | [] => []
  | c :: rest => { c with identifier := k } :: assignIds (k + 1) rest

/-- Stage a list of operations one by one into the id's transaction. -/
def stageList (tid ident : Nat) : MState → List Op → MState
  | st, [] => st
  | st, op :: ops => stageList tid ident (stageOp st tid ident op) ops

/-- The state produced by a finalizer-free `Create` loop: per child, bump
the object-id generator and stage the insert of the freshly identified
child. -/
def stageInserts (tid ident : Nat) : MState → List Obj → MState
  | st, [] => st
  | st, c :: rest =>
      stageInserts tid ident
        (stageOp { st with nextOid := st.nextOid + 1 } tid ident
          (Op.insert { c with identifier := st.nextOid })) rest

/-- Append a list of operations into the bulk of a category. -/
def bulkAppendOps (ident : Nat) : List Bulk → List Op → List Bulk
  | bulks, [] => bulks
  | bulks, op :: ops => bulkAppendOps ident (bulkAppend bulks ident op) ops

/-- The staged operations of a category's bulk. -/
def opsForIdentity : List Bulk → Nat → List Op
  | [], _ => []
  | b :: bs, ident => if b.identity = ident then b.ops else opsForIdentity bs ident

/-- The operations staged in a category's bulk of a registered
transaction. -/
def stagedOps (st : MState) (tid ident : Nat) : List Op :=
  match transactionWithID st.registry tid with
  | some t => opsForIdentity t.bulks ident
  | none => []

theorem bulkAppend_single (os : List Op) (ident : Nat) (op : Op) :
    bulkAppend [⟨ident, os⟩] ident op = [⟨ident, os ++ [op]⟩] := by
  simp [bulkAppend]

theorem bulkAppendOps_single (ident : Nat) (os ops : List Op) :
    bulkAppendOps ident [⟨ident, os⟩] ops = [⟨ident, os ++ ops⟩] := by
  induction ops generalizing os with
  | nil => simp [bulkAppendOps]
  | cons op rest ih => simp [bulkAppendOps, bulkAppend_single, ih]

theorem stageOp_registry (st : MState) (tid ident : Nat) (op : Op) :
    (stageOp st tid ident op).registry =
      st.registry.map
        (fun p => if p.1 = tid then (p.1, { p.2 with bulks := bulkAppend p.2.bulks ident op }) else p) :=
  rfl

theorem stageOp_misc (st : MState) (tid ident : Nat) (op : Op) :
    (stageOp st tid ident op).nextTid = st.nextTid ∧
    (stageOp st tid ident op).nextSession = st.nextSession ∧
    (stageOp st tid ident op).nextOid = st.nextOid ∧
    (stageOp st tid ident op).closedSessions = st.closedSessions :=
  ⟨rfl, rfl, rfl, rfl⟩

theorem stageList_lookup (tid ident : Nat) (ops : List Op) (st : MState) (t : Txn)
    (h : transactionWithID st.registry tid = some t) :
    transactionWithID (stageList tid ident st ops).registry tid =
      some { t with bulks := bulkAppendOps ident t.bulks ops } := by
  induction ops generalizing st t with
  | nil => simpa [stageList, bulkAppendOps] using h
  | cons op rest ih =>
      have hstep :
          transactionWithID (stageOp st tid ident op).registry tid =
            some { t with bulks := bulkAppend t.bulks ident op } := by
        have h2 := transactionWithID_updateTxn st.registry tid
          (fun u => { u with bulks := bulkAppend u.bulks ident op })
        rw [h] at h2
        exact h2
      simpa [stageList, bulkAppendOps] using ih (stageOp st tid ident op) _ hstep

theorem stageList_unregister (tid ident : Nat) (ops : List Op) (st : MState) :
    unregisterTransaction (stageList tid ident st ops).registry tid =
      unregisterTransaction st.registry tid := by
  induction ops generalizing st with
  | nil => rfl
  | cons op rest ih =>
      calc unregisterTransaction (stageList tid ident (stageOp st tid ident op) rest).registry tid
          = unregisterTransaction (stageOp st tid ident op).registry tid := ih _
        _ = unregisterTransaction st.registry tid :=
            unregister_updateTxn st.registry tid
              (fun u => { u with bulks := bulkAppend u.bulks ident op })

theorem stageList_misc (tid ident : Nat) (ops : List Op) (st : MState) :
    (stageList tid ident st ops).nextTid = st.nextTid ∧
    (stageList tid ident st ops).nextSession = st.nextSession ∧
    (stageList tid ident st ops).nextOid = st.nextOid ∧
    (stageList tid ident st ops).closedSessions = st.closedSessions := by
  induction ops generalizing st with
  | nil => exact ⟨rfl, rfl, rfl, rfl⟩
  | cons op rest ih => simpa [stageList] using ih (stageOp st tid ident op)

theorem stageList_nextOid_set (tid ident : Nat) (ops : List Op) (st : MState) (x : Nat) :
    stageList tid ident { st with nextOid := x } ops =
      { stageList tid ident st ops with nextOid := x } := by
  induction ops generalizing st with
  | nil => rfl
  | cons op rest ih =>
      have hcomm :
          stageOp { st with nextOid := x } tid ident op =
            { stageOp st tid ident op with nextOid := x } := rfl
      simp [stageList, hcomm, ih]

theorem stageInserts_eq_stageList (tid ident : Nat) (objs : List Obj) (st : MState) :
    stageInserts tid ident st objs =
      { stageList tid ident st ((assignIds st.nextOid objs).map Op.insert) with
          nextOid := st.nextOid + objs.length } := by
  induction objs generalizing st with
  | nil => simp [stageInserts, assignIds, stageList]
  | cons c rest ih =>
      have hcomm :
          stageOp { st with nextOid := st.nextOid + 1 } tid ident
              (Op.insert { c with identifier := st.nextOid }) =
            { stageOp st tid ident (Op.insert { c with identifier := st.nextOid }) with
                nextOid := st.nextOid + 1 } := rfl
      calc stageInserts tid ident st (c :: rest)
          = stageInserts tid ident
              { stageOp st tid ident (Op.insert { c with identifier := st.nextOid }) with
                  nextOid := st.nextOid + 1 } rest := by
            rw [stageInserts, hcomm]
        _ = _ := by
            rw [ih]
            simp [assignIds, stageList, stageList_nextOid_set]
            omega

theorem createLoop_no_finalizer (tid ident : Nat) (objs : List Obj) (st : MState) :
    createLoop none tid ident st objs =
      (none, assignIds st.nextOid objs, stageInserts tid ident st objs) := by
  induction objs generalizing st with
  | nil => rfl
  | cons c rest ih =>
      simp only [createLoop, finApply, assignIds, stageInserts]
      rw [ih]
      rfl

theorem createLoop_fail (f : Obj → Option Nat) (tid ident : Nat) (pre : List Obj)
    (bad : Obj) (post : List Obj) (e : Nat) (st : MState)
    (hpre : ∀ c ∈ assignIds st.nextOid pre, f c = none)
    (hbad : f { bad with identifier := st.nextOid + pre.length } = some e) :
    createLoop (some f) tid ident st (pre ++ bad :: post) =
      (some e,
        assignIds st.nextOid pre ++
          { bad with identifier := st.nextOid + pre.length } :: post,
        { stageInserts tid ident st pre with nextOid := st.nextOid + pre.length + 1 }) := by
  induction pre generalizing st with
  | nil =>
      simp only [List.length_nil, Nat.add_zero] at hbad
      simp only [List.nil_append, createLoop, finApply, hbad, assignIds, stageInserts,
        List.length_nil, Nat.add_zero]
  | cons c pre2 ih =>
      have hc1 : f { c with identifier := st.nextOid } = none :=
        hpre _ (by simp [assignIds])
      have hoid : (stageOp { st with nextOid := st.nextOid + 1 } tid ident
          (Op.insert { c with identifier := st.nextOid })).nextOid = st.nextOid + 1 := rfl
      have hpre2 : ∀ c2 ∈ assignIds (st.nextOid + 1) pre2, f c2 = none := by
        intro c2 hc2
        exact hpre c2 (by simp [assignIds, hc2])
      have hbad2 : f { bad with identifier := st.nextOid + 1 + pre2.length } = some e := by
        have harith : st.nextOid + 1 + pre2.length = st.nextOid + (c :: pre2).length := by
          simp
          omega
        rw [harith]
        exact hbad
      have hrec := ih (stageOp { st with nextOid := st.nextOid + 1 } tid ident
        (Op.insert { c with identifier := st.nextOid }))
        (by simpa [hoid] using hpre2) (by simpa [hoid] using hbad2)
      have harith2 : st.nextOid + 1 + pre2.length = st.nextOid + (c :: pre2).length := by
        simp only [List.length_cons]
        omega
      simp only [createLoop, finApply, hc1, List.cons_append, List.append_eq]
      rw [hrec]
      simp only [hoid, harith2, assignIds, stageInserts, List.cons_append]

theorem deleteLoop_eq (tid ident : Nat) (objs : List Obj) (st : MState) :
    deleteLoop tid ident st objs =
      (objs.map backport,
        stageList tid ident st (objs.map (fun o => Op.remove o.identifier))) := by
  induction objs generalizing st with
  | nil => rfl
  | cons o rest ih => simp [deleteLoop, stageList, ih]

theorem retrieveTransaction_implicit (st : MState)
    (hfresh : ∀ p ∈ st.registry, p.1 ≠ st.nextTid) :
    retrieveTransaction st none =
      (st.nextTid, true,
        { st with
            nextTid := st.nextTid + 1,
            nextSession := st.nextSession + 1,
            registry := registerTransaction st.registry st.nextTid
              ⟨st.nextTid, st.nextSession, []⟩ }) := by
  simp [retrieveTransaction, ensureTransaction,
    transactionWithID_eq_none st.registry st.nextTid hfresh]

theorem retrieveTransaction_explicit_new (st : MState) (tid : Nat)
    (h : transactionWithID st.registry tid = none) :
    retrieveTransaction st (some tid) =
      (tid, false,
        { st with
            nextSession := st.nextSession + 1,
            registry := registerTransaction st.registry tid ⟨tid, st.nextSession, []⟩ }) := by
  simp [retrieveTransaction, ensureTransaction, h]

theorem assignIds_bounds (objs : List Obj) (k : Nat) :
    ∀ o ∈ assignIds k objs, k ≤ o.identifier ∧ o.identifier < k + objs.length := by
  induction objs generalizing k with
  | nil => simp [assignIds]
  | cons c rest ih =>
      intro o ho
      simp only [assignIds, List.mem_cons] at ho
      rcases ho with h | h
      · subst h
        simp
      · have := ih (k + 1) o h
        simp only [List.length_cons]
        omega

theorem assignIds_pairwise (objs : List Obj) (k : Nat) :
    (assignIds k objs).Pairwise (fun a b => a.identifier ≠ b.identifier) := by
  induction objs generalizing k with
  | nil => simp [assignIds]
  | cons c rest ih =>
      simp only [assignIds, List.pairwise_cons]
      refine ⟨?_, ih (k + 1)⟩
      intro o ho
      have := (assignIds_bounds rest (k + 1) o ho).1
      show k ≠ o.identifier
      omega

theorem retrieveLoop_all_found (lk : Nat → LookupRes) (g : Obj → Obj) (objs : List Obj)
    (h : ∀ o ∈ objs, lk o.identifier = LookupRes.found (g o)) :
    retrieveLoop lk objs = (none, objs.map (fun o => backport (g o))) := by
  induction objs with
  | nil => rfl
  | cons o rest ih =>
      have ho := h o (by simp)
      have htl := ih (fun q hq => h q (by simp [hq]))
      simp [retrieveLoop, ho, htl]

theorem retrieveLoop_first_fail (lk : Nat → LookupRes) (g : Obj → Obj) (pre : List Obj)
    (bad : Obj) (post : List Obj)
    (hpre : ∀ o ∈ pre, lk o.identifier = LookupRes.found (g o)) :
    (lk bad.identifier = LookupRes.notFound →
      retrieveLoop lk (pre ++ bad :: post) =
        (some MErr.objectNotFound, pre.map (fun o => backport (g o)) ++ bad :: post)) ∧
    (∀ m, lk bad.identifier = LookupRes.failure m →
      retrieveLoop lk (pre ++ bad :: post) =
        (some (MErr.cannotExecuteQuery m), pre.map (fun o => backport (g o)) ++ bad :: post)) := by
  induction pre with
  | nil =>
      constructor
      · intro h
        simp [retrieveLoop, h]
      · intro m h
        simp [retrieveLoop, h]
  | cons o rest ih =>
      have ho := hpre o (by simp)
      have ih2 := ih (fun q hq => hpre q (by simp [hq]))
      constructor
      · intro h
        simp [retrieveLoop, ho, ih2.1 h]
      · intro m h
        simp [retrieveLoop, ho, ih2.2 m h]

/-- C8: per object, `Retrieve` translates a zero-record lookup into
`objectNotFound` — an error kind distinct from the generic
`cannotExecuteQuery` — translates any other lookup failure into
`cannotExecuteQuery`, stopping at the first failing object either way,
and on every successful lookup stores the fetched record with the
default-value backport applied before moving to the next object. -/
theorem retrieve_per_object_semantics (lk : Nat → LookupRes) (g : Obj → Obj)
    (pre : List Obj) (bad : Obj) (post : List Obj)
    (hpre : ∀ o ∈ pre, lk o.identifier = LookupRes.found (g o)) :
    (∀ objs, (∀ o ∈ objs, lk o.identifier = LookupRes.found (g o)) →
      retrieve lk objs = (none, objs.map (fun o => backport (g o)))) ∧
    (lk bad.identifier = LookupRes.notFound →
      retrieve lk (pre ++ bad :: post) =
        (some MErr.objectNotFound, pre.map (fun o => backport (g o)) ++ bad :: post)) ∧
    (∀ m, lk bad.identifier = LookupRes.failure m →
      retrieve lk (pre ++ bad :: post) =
        (some (MErr.cannotExecuteQuery m), pre.map (fun o => backport (g o)) ++ bad :: post)) ∧
    (∀ m, MErr.objectNotFound ≠ MErr.cannotExecuteQuery m) := by
  refine ⟨?_, ?_, ?_, by intro m; simp⟩
  · intro objs h
    cases objs with
    | nil => rfl
    | cons o rest => exact retrieveLoop_all_found lk g _ h
  · intro h
    have hl := (retrieveLoop_first_fail lk g pre bad post hpre).1 h
    cases pre with
    | nil => simpa [retrieve] using hl
    | cons p pre2 => simpa [retrieve] using hl
  · intro m h
    have hl := (retrieveLoop_first_fail lk g pre bad post hpre).2 m h
    cases pre with
    | nil => simpa [retrieve] using hl
    | cons p pre2 => simpa [retrieve] using hl

theorem retrieve_per_object_semantics_witness :
    retrieve (fun oid => if oid = 1 then LookupRes.found ⟨1, 0, [], []⟩ else LookupRes.notFound)
        ([⟨1, 0, [], []⟩] ++ (⟨2, 0, [], []⟩ : Obj) :: []) =
      (some MErr.objectNotFound,
        ([⟨1, 0, [], []⟩] : List Obj).map
          (fun o => backport ((fun o => o) o)) ++ (⟨2, 0, [], []⟩ : Obj) :: []) :=
  (retrieve_per_object_semantics
      (fun oid => if oid = 1 then LookupRes.found ⟨1, 0, [], []⟩ else LookupRes.notFound)
      (fun o => o) [⟨1, 0, [], []⟩] ⟨2, 0, [], []⟩ [] (by decide)).2.1 (by decide)

/-- C9: `Create` on an empty object list panics — embedded as the
`none` result, the unconditional `children[0].Identity()` read going out
of range — while `Update`, `Delete` and `Retrieve` on an empty list
return success at once with the state untouched and a result that does
not depend on the backend (no transaction created, nothing staged, no
backend contact). -/
theorem empty_object_list_calls (run : Bulk → RunRes) (st : MState) (ctxTid : Option Nat)
    (fin : Option (Obj → Option Nat)) (lk : Nat → LookupRes) :
    create run st ctxTid fin [] = none ∧
    update run st ctxTid [] = (none, st) ∧
    delete run st ctxTid [] = (none, [], st) ∧
    retrieve lk [] = (none, []) :=
  ⟨rfl, rfl, rfl, rfl⟩

theorem zipWith_default_get (fs ds : List Int) (i : Nat) (d : Int)
    (hd : ds[i]? = some d) (hf : fs[i]? = some 0) :
    (fs.zipWith (fun v dv => if v = 0 then dv else v) ds)[i]? = some d := by
  induction fs generalizing ds i with
  | nil => simp at hf
  | cons v fs ih =>
      cases ds with
      | nil => simp at hd
      | cons dv ds =>
          cases i with
          | zero =>
              simp at hd hf
              simp [List.zipWith, hf, hd]
          | succ n =>
              simp at hd hf
              simpa [List.zipWith] using ih ds n hd hf

theorem backport_restores_default (o : Obj) (i : Nat) (d : Int)
    (hd : o.defaults[i]? = some d) (hf : o.fields[i]? = some 0) :
    (backport o).fields[i]? = some d := by
  simp only [backport]
  exact zipWith_default_get o.fields o.defaults i d hd hf

/-- C7: `Delete` on a non-empty object list stages one
remove-by-identifier per object — and nothing else — into the first
object's bulk, and hands back every passed-in object with the
default-value backport applied in place, so a field holding the storage
zero value whose schema declares a non-zero default holds that default
after the call, though only removals were staged toward the backend. -/
theorem delete_removals_and_backport (run : Bulk → RunRes) (st : MState) (tid0 : Nat)
    (objs : List Obj) (o0 : Obj) (rest : List Obj)
    (hobjs : objs = o0 :: rest)
    (htid : transactionWithID st.registry tid0 = none)
    (hfresh : ∀ p ∈ st.registry, p.1 ≠ st.nextTid) :
    (∃ st2,
      delete run st (some tid0) objs = (none, objs.map backport, st2) ∧
      stagedOps st2 tid0 o0.identity = objs.map (fun o => Op.remove o.identifier)) ∧
    (delete run st none objs).2.1 = objs.map backport ∧
    (∀ o : Obj, ∀ i : Nat, ∀ d : Int, o.defaults[i]? = some d → d ≠ 0 →
      o.fields[i]? = some 0 → (backport o).fields[i]? = some d) := by
  subst hobjs
  refine ⟨?_, ?_, fun o i d hd _ hf => backport_restores_default o i d hd hf⟩
  case refine_2 =>
    have hrt2 := retrieveTransaction_implicit st hfresh
    simp only [delete, hrt2]
    rw [deleteLoop_eq]
    simp
  have hrt := retrieveTransaction_explicit_new st tid0 htid
  have hlookA :
      transactionWithID
        (registerTransaction st.registry tid0 ⟨tid0, st.nextSession, []⟩) tid0 =
        some ⟨tid0, st.nextSession, []⟩ :=
    transactionWithID_register _ _ _
  have hlook1 :
      transactionWithID
        (ensureBulk
          { st with
              nextSession := st.nextSession + 1,
              registry := registerTransaction st.registry tid0 ⟨tid0, st.nextSession, []⟩ }
          tid0 o0.identity).registry tid0 =
        some ⟨tid0, st.nextSession, [⟨o0.identity, []⟩]⟩ := by
    have h2 := transactionWithID_updateTxn
      (registerTransaction st.registry tid0 ⟨tid0, st.nextSession, []⟩) tid0
      (fun u => { u with bulks := bulkEnsure u.bulks o0.identity })
    rw [hlookA] at h2
    exact h2
  refine ⟨stageList tid0 o0.identity
      (ensureBulk
        { st with
            nextSession := st.nextSession + 1,
            registry := registerTransaction st.registry tid0 ⟨tid0, st.nextSession, []⟩ }
        tid0 o0.identity)
      ((o0 :: rest).map (fun o => Op.remove o.identifier)), ?_, ?_⟩
  · simp only [delete, hrt]
    rw [deleteLoop_eq]
    simp
  · have h3 := stageList_lookup tid0 o0.identity
      (((o0 :: rest).map (fun o => Op.remove o.identifier)))
      (ensureBulk
        { st with
            nextSession := st.nextSession + 1,
            registry := registerTransaction st.registry tid0 ⟨tid0, st.nextSession, []⟩ }
        tid0 o0.identity)
      ⟨tid0, st.nextSession, [⟨o0.identity, []⟩]⟩ hlook1
    simp only [stagedOps, h3, bulkAppendOps_single, List.nil_append, opsForIdentity, if_pos]

theorem delete_removals_and_backport_witness :
    (∃ st2,
      delete (fun _ => RunRes.ok) ⟨[], 0, 0, 0, []⟩ (some 4) [⟨8, 2, [0], [5]⟩] =
        (none, ([⟨8, 2, [0], [5]⟩] : List Obj).map backport, st2) ∧
      stagedOps st2 4 (⟨8, 2, [0], [5]⟩ : Obj).identity =
        ([⟨8, 2, [0], [5]⟩] : List Obj).map (fun o => Op.remove o.identifier)) ∧
    (delete (fun _ => RunRes.ok) ⟨[], 0, 0, 0, []⟩ none [⟨8, 2, [0], [5]⟩]).2.1 =
      ([⟨8, 2, [0], [5]⟩] : List Obj).map backport ∧
    (∀ o : Obj, ∀ i : Nat, ∀ d : Int, o.defaults[i]? = some d → d ≠ 0 →
      o.fields[i]? = some 0 → (backport o).fields[i]? = some d) :=
  delete_removals_and_backport (fun _ => RunRes.ok) ⟨[], 0, 0, 0, []⟩ 4
    [⟨8, 2, [0], [5]⟩] ⟨8, 2, [0], [5]⟩ [] rfl (by decide) (by decide)

/-- C5: when a `Create` call carries a finalizer, each child gets a fresh
identifier assigned before the finalizer sees it; a finalizer failure on
the object after `pre` returns that finalizer's error as the call's
result, the children before it are staged as inserts — and stay staged —
while no insert is staged for the failing object or any later one (the
staged operations are exactly the inserts of `pre`). -/
theorem create_finalizer_failure (run : Bulk → RunRes) (st : MState) (tid0 : Nat)
    (f : Obj → Option Nat) (pre : List Obj) (bad : Obj) (post : List Obj) (e : Nat)
    (c0 : Obj) (rest : List Obj)
    (hsplit : pre ++ bad :: post = c0 :: rest)
    (htid : transactionWithID st.registry tid0 = none)
    (hpre : ∀ c ∈ assignIds st.nextOid pre, f c = none)
    (hbad : f { bad with identifier := st.nextOid + pre.length } = some e) :
    ∃ st2,
      create run st (some tid0) (some f) (pre ++ bad :: post) =
        some (some (MErr.finalizerFailed e),
          assignIds st.nextOid pre ++
            { bad with identifier := st.nextOid + pre.length } :: post, st2) ∧
      stagedOps st2 tid0 c0.identity = (assignIds st.nextOid pre).map Op.insert := by
  have hrt := retrieveTransaction_explicit_new st tid0 htid
  have hlookA :
      transactionWithID
        (registerTransaction st.registry tid0 ⟨tid0, st.nextSession, []⟩) tid0 =
        some ⟨tid0, st.nextSession, []⟩ :=
    transactionWithID_register _ _ _
  have hlook1 :
      transactionWithID
        (ensureBulk
          { st with
              nextSession := st.nextSession + 1,
              registry := registerTransaction st.registry tid0 ⟨tid0, st.nextSession, []⟩ }
          tid0 c0.identity).registry tid0 =
        some ⟨tid0, st.nextSession, [⟨c0.identity, []⟩]⟩ := by
    have h2 := transactionWithID_updateTxn
      (registerTransaction st.registry tid0 ⟨tid0, st.nextSession, []⟩) tid0
      (fun u => { u with bulks := bulkEnsure u.bulks c0.identity })
    rw [hlookA] at h2
    exact h2
  have hpre1 :
      ∀ c ∈ assignIds
        (ensureBulk
          { st with
              nextSession := st.nextSession + 1,
              registry := registerTransaction st.registry tid0 ⟨tid0, st.nextSession, []⟩ }
          tid0 c0.identity).nextOid pre, f c = none := hpre
  have hbad1 :
      f { bad with
            identifier :=
              (ensureBulk
                { st with
                    nextSession := st.nextSession + 1,
                    registry := registerTransaction st.registry tid0 ⟨tid0, st.nextSession, []⟩ }
                tid0 c0.identity).nextOid + pre.length } = some e := hbad
  have hloop := createLoop_fail f tid0 c0.identity pre bad post e
    (ensureBulk
      { st with
          nextSession := st.nextSession + 1,
          registry := registerTransaction st.registry tid0 ⟨tid0, st.nextSession, []⟩ }
      tid0 c0.identity) hpre1 hbad1
  refine ⟨{ stageInserts tid0 c0.identity
      (ensureBulk
        { st with
            nextSession := st.nextSession + 1,
            registry := registerTransaction st.registry tid0 ⟨tid0, st.nextSession, []⟩ }
        tid0 c0.identity) pre with
      nextOid :=
        (ensureBulk
          { st with
              nextSession := st.nextSession + 1,
              registry := registerTransaction st.registry tid0 ⟨tid0, st.nextSession, []⟩ }
          tid0 c0.identity).nextOid + pre.length + 1 }, ?_, ?_⟩
  · rw [hsplit]
    simp only [create, hrt]
    rw [← hsplit, hloop]
    rfl
  · have hoid :
        (ensureBulk
          { st with
              nextSession := st.nextSession + 1,
              registry := registerTransaction st.registry tid0 ⟨tid0, st.nextSession, []⟩ }
          tid0 c0.identity).nextOid = st.nextOid := rfl
    have h3 := stageList_lookup tid0 c0.identity
      ((assignIds st.nextOid pre).map Op.insert)
      (ensureBulk
        { st with
            nextSession := st.nextSession + 1,
            registry := registerTransaction st.registry tid0 ⟨tid0, st.nextSession, []⟩ }
        tid0 c0.identity)
      ⟨tid0, st.nextSession, [⟨c0.identity, []⟩]⟩ hlook1
    have hsi := stageInserts_eq_stageList tid0 c0.identity pre
      (ensureBulk
        { st with
            nextSession := st.nextSession + 1,
            registry := registerTransaction st.registry tid0 ⟨tid0, st.nextSession, []⟩ }
        tid0 c0.identity)
    simp only [stagedOps, hoid, hsi, h3, bulkAppendOps_single, List.nil_append,
      opsForIdentity, if_pos]

theorem create_finalizer_failure_witness :
    ∃ st2,
      create (fun _ => RunRes.ok) ⟨[], 0, 0, 0, []⟩ (some 3)
          (some (fun o => if o.identifier = 1 then some 42 else none))
          ([⟨0, 7, [], []⟩] ++ (⟨0, 7, [], []⟩ : Obj) :: []) =
        some (some (MErr.finalizerFailed 42),
          assignIds 0 [⟨0, 7, [], []⟩] ++ (⟨1, 7, [], []⟩ : Obj) :: [], st2) ∧
      stagedOps st2 3 ((⟨0, 7, [], []⟩ : Obj)).identity =
        (assignIds 0 [⟨0, 7, [], []⟩]).map Op.insert :=
  create_finalizer_failure (fun _ => RunRes.ok) ⟨[], 0, 0, 0, []⟩ 3
    (fun o => if o.identifier = 1 then some 42 else none)
    [⟨0, 7, [], []⟩] ⟨0, 7, [], []⟩ [] 42 ⟨0, 7, [], []⟩ [⟨0, 7, [], []⟩] rfl
    (by decide) (by decide) (by decide)

theorem stageInserts_misc (tid ident : Nat) (objs : List Obj) (st : MState) :
    (stageInserts tid ident st objs).closedSessions = st.closedSessions ∧
    (stageInserts tid ident st objs).nextTid = st.nextTid ∧
    (stageInserts tid ident st objs).nextSession = st.nextSession := by
  induction objs generalizing st with
  | nil => exact ⟨rfl, rfl, rfl⟩
  | cons c rest ih => simpa [stageInserts] using ih _

/-- C10: when the finalizer of an implicit `Create` (no transaction id in
the context) fails, the transaction created for the call is neither
committed nor aborted: after the call returns the finalizer's error, the
generated id is still registered — holding the inserts staged before the
failure — and its session has not been closed (the closed-session log is
unchanged); since `Create` only returns the error, the caller is never
told the generated id. -/
theorem create_implicit_finalizer_leaks (run : Bulk → RunRes) (st : MState)
    (f : Obj → Option Nat) (pre : List Obj) (bad : Obj) (post : List Obj) (e : Nat)
    (c0 : Obj) (rest : List Obj)
    (hsplit : pre ++ bad :: post = c0 :: rest)
    (hfresh : ∀ p ∈ st.registry, p.1 ≠ st.nextTid)
    (hpre : ∀ c ∈ assignIds st.nextOid pre, f c = none)
    (hbad : f { bad with identifier := st.nextOid + pre.length } = some e) :
    ∃ st2,
      create run st none (some f) (pre ++ bad :: post) =
        some (some (MErr.finalizerFailed e),
          assignIds st.nextOid pre ++
            { bad with identifier := st.nextOid + pre.length } :: post, st2) ∧
      transactionWithID st2.registry st.nextTid =
        some ⟨st.nextTid, st.nextSession,
          [⟨c0.identity, (assignIds st.nextOid pre).map Op.insert⟩]⟩ ∧
      st2.closedSessions = st.closedSessions := by
  have hrt := retrieveTransaction_implicit st hfresh
  have hlookA :
      transactionWithID
        (registerTransaction st.registry st.nextTid ⟨st.nextTid, st.nextSession, []⟩)
        st.nextTid = some ⟨st.nextTid, st.nextSession, []⟩ :=
    transactionWithID_register _ _ _
  have hlook1 :
      transactionWithID
        (ensureBulk
          { st with
              nextTid := st.nextTid + 1,
              nextSession := st.nextSession + 1,
              registry := registerTransaction st.registry st.nextTid
                ⟨st.nextTid, st.nextSession, []⟩ }
          st.nextTid c0.identity).registry st.nextTid =
        some ⟨st.nextTid, st.nextSession, [⟨c0.identity, []⟩]⟩ := by
    have h2 := transactionWithID_updateTxn
      (registerTransaction st.registry st.nextTid ⟨st.nextTid, st.nextSession, []⟩)
      st.nextTid (fun u => { u with bulks := bulkEnsure u.bulks c0.identity })
    rw [hlookA] at h2
    exact h2
  have hpre1 :
      ∀ c ∈ assignIds
        (ensureBulk
          { st with
              nextTid := st.nextTid + 1,
              nextSession := st.nextSession + 1,
              registry := registerTransaction st.registry st.nextTid
                ⟨st.nextTid, st.nextSession, []⟩ }
          st.nextTid c0.identity).nextOid pre, f c = none := hpre
  have hbad1 :
      f { bad with
            identifier :=
              (ensureBulk
                { st with
                    nextTid := st.nextTid + 1,
                    nextSession := st.nextSession + 1,
                    registry := registerTransaction st.registry st.nextTid
                      ⟨st.nextTid, st.nextSession, []⟩ }
                st.nextTid c0.identity).nextOid + pre.length } = some e := hbad
  have hloop := createLoop_fail f st.nextTid c0.identity pre bad post e
    (ensureBulk
      { st with
          nextTid := st.nextTid + 1,
          nextSession := st.nextSession + 1,
          registry := registerTransaction st.registry st.nextTid
            ⟨st.nextTid, st.nextSession, []⟩ }
      st.nextTid c0.identity) hpre1 hbad1
  have hoid :
      (ensureBulk
        { st with
            nextTid := st.nextTid + 1,
            nextSession := st.nextSession + 1,
            registry := registerTransaction st.registry st.nextTid
              ⟨st.nextTid, st.nextSession, []⟩ }
        st.nextTid c0.identity).nextOid = st.nextOid := rfl
  refine ⟨{ stageInserts st.nextTid c0.identity
      (ensureBulk
        { st with
            nextTid := st.nextTid + 1,
            nextSession := st.nextSession + 1,
            registry := registerTransaction st.registry st.nextTid
              ⟨st.nextTid, st.nextSession, []⟩ }
        st.nextTid c0.identity) pre with
      nextOid :=
        (ensureBulk
          { st with
              nextTid := st.nextTid + 1,
              nextSession := st.nextSession + 1,
              registry := registerTransaction st.registry st.nextTid
                ⟨st.nextTid, st.nextSession, []⟩ }
          st.nextTid c0.identity).nextOid + pre.length + 1 }, ?_, ?_, ?_⟩
  · rw [hsplit]
    simp only [create, hrt]
    rw [← hsplit, hloop]
    rfl
  · have h3 := stageList_lookup st.nextTid c0.identity
      ((assignIds st.nextOid pre).map Op.insert)
      (ensureBulk
        { st with
            nextTid := st.nextTid + 1,
            nextSession := st.nextSession + 1,
            registry := registerTransaction st.registry st.nextTid
              ⟨st.nextTid, st.nextSession, []⟩ }
        st.nextTid c0.identity)
      ⟨st.nextTid, st.nextSession, [⟨c0.identity, []⟩]⟩ hlook1
    have hsi := stageInserts_eq_stageList st.nextTid c0.identity pre
      (ensureBulk
        { st with
            nextTid := st.nextTid + 1,
            nextSession := st.nextSession + 1,
            registry := registerTransaction st.registry st.nextTid
              ⟨st.nextTid, st.nextSession, []⟩ }
        st.nextTid c0.identity)
    simp only [hoid, hsi, h3, bulkAppendOps_single, List.nil_append]
  · exact (stageInserts_misc st.nextTid c0.identity pre
      (ensureBulk
        { st with
            nextTid := st.nextTid + 1,
            nextSession := st.nextSession + 1,
            registry := registerTransaction st.registry st.nextTid
              ⟨st.nextTid, st.nextSession, []⟩ }
        st.nextTid c0.identity)).1

theorem create_implicit_finalizer_leaks_witness :
    ∃ st2,
      create (fun _ => RunRes.ok) ⟨[], 0, 0, 0, []⟩ none
          (some (fun o => if o.identifier = 0 then some 9 else none))
          ([] ++ (⟨5, 2, [], []⟩ : Obj) :: [⟨6, 2, [], []⟩]) =
        some (some (MErr.finalizerFailed 9),
          assignIds 0 [] ++ (⟨0, 2, [], []⟩ : Obj) :: [⟨6, 2, [], []⟩], st2) ∧
      transactionWithID st2.registry 0 =
        some ⟨0, 0, [⟨2, (assignIds 0 []).map Op.insert⟩]⟩ ∧
      st2.closedSessions = [] :=
  create_implicit_finalizer_leaks (fun _ => RunRes.ok) ⟨[], 0, 0, 0, []⟩
    (fun o => if o.identifier = 0 then some 9 else none)
    [] ⟨5, 2, [], []⟩ [⟨6, 2, [], []⟩] 9 ⟨5, 2, [], []⟩ [⟨6, 2, [], []⟩] rfl
    (by decide) (by decide) (by decide)

/-- C6: an implicit `Create` (no transaction id in the context, no
finalizer) of two or more objects creates exactly one registry entry and
removes it within the call — the final registry equals the initial one,
with exactly the one fresh session closed — commits the staged inserts
at once, `Commit`'s result on the single staged bulk becoming the call's
result, and afterwards every created object carries a freshly assigned
identifier (at or above the generator's mark) distinct from the
identifiers of the others. -/
theorem create_implicit_commits_once (run : Bulk → RunRes) (st : MState)
    (children : List Obj) (c0 : Obj) (rest : List Obj)
    (hc : children = c0 :: rest) (hlen : 2 ≤ children.length)
    (hfresh : ∀ p ∈ st.registry, p.1 ≠ st.nextTid) :
    ∃ st2,
      create run st none none children =
        some ((runBulks run
            [⟨c0.identity, (assignIds st.nextOid children).map Op.insert⟩]).1,
          assignIds st.nextOid children, st2) ∧
      st2.registry = st.registry ∧
      st2.closedSessions = st.closedSessions ++ [st.nextSession] ∧
      (assignIds st.nextOid children).Pairwise (fun a b => a.identifier ≠ b.identifier) ∧
      (∀ o ∈ assignIds st.nextOid children, st.nextOid ≤ o.identifier) := by
  subst hc
  have hrt := retrieveTransaction_implicit st hfresh
  have hlookA :
      transactionWithID
        (registerTransaction st.registry st.nextTid ⟨st.nextTid, st.nextSession, []⟩)
        st.nextTid = some ⟨st.nextTid, st.nextSession, []⟩ :=
    transactionWithID_register _ _ _
  have hlook1 :
      transactionWithID
        (ensureBulk
          { st with
              nextTid := st.nextTid + 1,
              nextSession := st.nextSession + 1,
              registry := registerTransaction st.registry st.nextTid
                ⟨st.nextTid, st.nextSession, []⟩ }
          st.nextTid c0.identity).registry st.nextTid =
        some ⟨st.nextTid, st.nextSession, [⟨c0.identity, []⟩]⟩ := by
    have h2 := transactionWithID_updateTxn
      (registerTransaction st.registry st.nextTid ⟨st.nextTid, st.nextSession, []⟩)
      st.nextTid (fun u => { u with bulks := bulkEnsure u.bulks c0.identity })
    rw [hlookA] at h2
    exact h2
  have hoid :
      (ensureBulk
        { st with
            nextTid := st.nextTid + 1,
            nextSession := st.nextSession + 1,
            registry := registerTransaction st.registry st.nextTid
              ⟨st.nextTid, st.nextSession, []⟩ }
        st.nextTid c0.identity).nextOid = st.nextOid := rfl
  have hloop := createLoop_no_finalizer st.nextTid c0.identity (c0 :: rest)
    (ensureBulk
      { st with
          nextTid := st.nextTid + 1,
          nextSession := st.nextSession + 1,
          registry := registerTransaction st.registry st.nextTid
            ⟨st.nextTid, st.nextSession, []⟩ }
      st.nextTid c0.identity)
  have hsi := stageInserts_eq_stageList st.nextTid c0.identity (c0 :: rest)
    (ensureBulk
      { st with
          nextTid := st.nextTid + 1,
          nextSession := st.nextSession + 1,
          registry := registerTransaction st.registry st.nextTid
            ⟨st.nextTid, st.nextSession, []⟩ }
      st.nextTid c0.identity)
  have h3 := stageList_lookup st.nextTid c0.identity
    ((assignIds st.nextOid (c0 :: rest)).map Op.insert)
    (ensureBulk
      { st with
          nextTid := st.nextTid + 1,
          nextSession := st.nextSession + 1,
          registry := registerTransaction st.registry st.nextTid
            ⟨st.nextTid, st.nextSession, []⟩ }
      st.nextTid c0.identity)
    ⟨st.nextTid, st.nextSession, [⟨c0.identity, []⟩]⟩ hlook1
  have hlookF :
      transactionWithID
        (stageInserts st.nextTid c0.identity
          (ensureBulk
            { st with
                nextTid := st.nextTid + 1,
                nextSession := st.nextSession + 1,
                registry := registerTransaction st.registry st.nextTid
                  ⟨st.nextTid, st.nextSession, []⟩ }
            st.nextTid c0.identity)
          (c0 :: rest)).registry st.nextTid =
        some ⟨st.nextTid, st.nextSession,
          [⟨c0.identity, (assignIds st.nextOid (c0 :: rest)).map Op.insert⟩]⟩ := by
    rw [hsi]
    simp only [hoid]
    have h4 :
        transactionWithID
          (stageList st.nextTid c0.identity
            (ensureBulk
              { st with
                  nextTid := st.nextTid + 1,
                  nextSession := st.nextSession + 1,
                  registry := registerTransaction st.registry st.nextTid
                    ⟨st.nextTid, st.nextSession, []⟩ }
              st.nextTid c0.identity)
            ((assignIds st.nextOid (c0 :: rest)).map Op.insert)).registry st.nextTid =
          some ⟨st.nextTid, st.nextSession,
            [⟨c0.identity, (assignIds st.nextOid (c0 :: rest)).map Op.insert⟩]⟩ := by
      simpa [bulkAppendOps_single] using h3
    exact h4
  have hcommit :
      commit run
        (stageInserts st.nextTid c0.identity
          (ensureBulk
            { st with
                nextTid := st.nextTid + 1,
                nextSession := st.nextSession + 1,
                registry := registerTransaction st.registry st.nextTid
                  ⟨st.nextTid, st.nextSession, []⟩ }
            st.nextTid c0.identity)
          (c0 :: rest)) st.nextTid =
        ((runBulks run
            [⟨c0.identity, (assignIds st.nextOid (c0 :: rest)).map Op.insert⟩]).1,
         (runBulks run
            [⟨c0.identity, (assignIds st.nextOid (c0 :: rest)).map Op.insert⟩]).2,
         { stageInserts st.nextTid c0.identity
              (ensureBulk
                { st with
                    nextTid := st.nextTid + 1,
                    nextSession := st.nextSession + 1,
                    registry := registerTransaction st.registry st.nextTid
                      ⟨st.nextTid, st.nextSession, []⟩ }
                st.nextTid c0.identity)
              (c0 :: rest) with
            closedSessions :=
              (stageInserts st.nextTid c0.identity
                (ensureBulk
                  { st with
                      nextTid := st.nextTid + 1,
                      nextSession := st.nextSession + 1,
                      registry := registerTransaction st.registry st.nextTid
                        ⟨st.nextTid, st.nextSession, []⟩ }
                  st.nextTid c0.identity)
                (c0 :: rest)).closedSessions ++ [st.nextSession],
            registry :=
              unregisterTransaction
                (stageInserts st.nextTid c0.identity
                  (ensureBulk
                    { st with
                        nextTid := st.nextTid + 1,
                        nextSession := st.nextSession + 1,
                        registry := registerTransaction st.registry st.nextTid
                          ⟨st.nextTid, st.nextSession, []⟩ }
                    st.nextTid c0.identity)
                  (c0 :: rest)).registry st.nextTid }) := by
    simp only [commit, hlookF]
  refine ⟨{ stageInserts st.nextTid c0.identity
      (ensureBulk
        { st with
            nextTid := st.nextTid + 1,
            nextSession := st.nextSession + 1,
            registry := registerTransaction st.registry st.nextTid
              ⟨st.nextTid, st.nextSession, []⟩ }
        st.nextTid c0.identity)
      (c0 :: rest) with
      closedSessions :=
        (stageInserts st.nextTid c0.identity
          (ensureBulk
            { st with
                nextTid := st.nextTid + 1,
                nextSession := st.nextSession + 1,
                registry := registerTransaction st.registry st.nextTid
                  ⟨st.nextTid, st.nextSession, []⟩ }
            st.nextTid c0.identity)
          (c0 :: rest)).closedSessions ++ [st.nextSession],
      registry :=
        unregisterTransaction
          (stageInserts st.nextTid c0.identity
            (ensureBulk
              { st with
                  nextTid := st.nextTid + 1,
                  nextSession := st.nextSession + 1,
                  registry := registerTransaction st.registry st.nextTid
                    ⟨st.nextTid, st.nextSession, []⟩ }
              st.nextTid c0.identity)
            (c0 :: rest)).registry st.nextTid },
    ?_, ?_, ?_, assignIds_pairwise (c0 :: rest) st.nextOid,
    fun o ho => (assignIds_bounds (c0 :: rest) st.nextOid o ho).1⟩
  · simp only [create, hrt]
    rw [hloop]
    simp only [hoid]
    rw [hcommit]
    simp
  · show unregisterTransaction
        (stageInserts st.nextTid c0.identity
          (ensureBulk
            { st with
                nextTid := st.nextTid + 1,
                nextSession := st.nextSession + 1,
                registry := registerTransaction st.registry st.nextTid
                  ⟨st.nextTid, st.nextSession, []⟩ }
            st.nextTid c0.identity)
          (c0 :: rest)).registry st.nextTid = st.registry
    rw [hsi]
    have h5 :
        unregisterTransaction
          (stageList st.nextTid c0.identity
            (ensureBulk
              { st with
                  nextTid := st.nextTid + 1,
                  nextSession := st.nextSession + 1,
                  registry := registerTransaction st.registry st.nextTid
                    ⟨st.nextTid, st.nextSession, []⟩ }
              st.nextTid c0.identity)
            ((assignIds st.nextOid (c0 :: rest)).map Op.insert)).registry st.nextTid =
          unregisterTransaction
            (ensureBulk
              { st with
                  nextTid := st.nextTid + 1,
                  nextSession := st.nextSession + 1,
                  registry := registerTransaction st.registry st.nextTid
                    ⟨st.nextTid, st.nextSession, []⟩ }
              st.nextTid c0.identity).registry st.nextTid :=
      stageList_unregister st.nextTid c0.identity _ _
    have h6 :
        unregisterTransaction
          (ensureBulk
            { st with
                nextTid := st.nextTid + 1,
                nextSession := st.nextSession + 1,
                registry := registerTransaction st.registry st.nextTid
                  ⟨st.nextTid, st.nextSession, []⟩ }
            st.nextTid c0.identity).registry st.nextTid =
          unregisterTransaction
            (registerTransaction st.registry st.nextTid ⟨st.nextTid, st.nextSession, []⟩)
            st.nextTid :=
      unregister_updateTxn
        (registerTransaction st.registry st.nextTid ⟨st.nextTid, st.nextSession, []⟩)
        st.nextTid (fun u => { u with bulks := bulkEnsure u.bulks c0.identity })
    have h7 :
        unregisterTransaction
          (registerTransaction st.registry st.nextTid ⟨st.nextTid, st.nextSession, []⟩)
          st.nextTid = unregisterTransaction st.registry st.nextTid := by
      simp [registerTransaction, unregisterTransaction]
    have h8 := unregister_of_fresh st.registry st.nextTid hfresh
    simp only [hoid]
    rw [h5, h6, h7, h8]
  · show (stageInserts st.nextTid c0.identity
        (ensureBulk
          { st with
              nextTid := st.nextTid + 1,
              nextSession := st.nextSession + 1,
              registry := registerTransaction st.registry st.nextTid
                ⟨st.nextTid, st.nextSession, []⟩ }
          st.nextTid c0.identity)
        (c0 :: rest)).closedSessions ++ [st.nextSession] =
      st.closedSessions ++ [st.nextSession]
    rw [(stageInserts_misc st.nextTid c0.identity (c0 :: rest) _).1]
    rfl

theorem create_implicit_commits_once_witness :
    ∃ st2,
      create (fun _ => RunRes.ok) ⟨[], 0, 0, 0, []⟩ none none
          [⟨0, 4, [], []⟩, ⟨0, 4, [], []⟩] =
        some ((runBulks (fun _ => RunRes.ok)
            [⟨4, (assignIds 0 [⟨0, 4, [], []⟩, ⟨0, 4, [], []⟩]).map Op.insert⟩]).1,
          assignIds 0 [⟨0, 4, [], []⟩, ⟨0, 4, [], []⟩], st2) ∧
      st2.registry = [] ∧
      st2.closedSessions = [] ++ [0] ∧
      (assignIds 0 [⟨0, 4, [], []⟩, ⟨0, 4, [], []⟩]).Pairwise
        (fun a b => a.identifier ≠ b.identifier) ∧
      (∀ o ∈ assignIds 0 [⟨0, 4, [], []⟩, ⟨0, 4, [], []⟩], 0 ≤ o.identifier) :=
  create_implicit_commits_once (fun _ => RunRes.ok) ⟨[], 0, 0, 0, []⟩
    [⟨0, 4, [], []⟩, ⟨0, 4, [], []⟩] ⟨0, 4, [], []⟩ [⟨0, 4, [], []⟩] rfl
    (by decide) (by decide)

end ManipMongo
